import Mathlib

/-!
Shallow embedding of the NexusOS simulation core (src/hola.py):
the `ProcessScheduler` and the `MemoryManager` classes and the operations
the claims refer to. Python dicts are modelled as insertion-ordered
association lists with unique keys; dict assignment overwrites in place,
`del` removes, `len` counts entries. Timestamps (`datetime.now()`) and the
`print` side effects are not modelled: no claim mentions them.
-/

/-- The `ProcessState` enumeration of the source (values are display strings,
irrelevant here). -/
inductive ProcessState where
  | NEW
  | READY
  | RUNNING
  | WAITING
  | TERMINATED
deriving DecidableEq, Repr, Inhabited

/-- The `Process` record. `created_at` (a wall-clock timestamp) is omitted:
no claim observes it. -/
structure Process where
  pid : Nat
  name : String
  state : ProcessState
  priority : Int
  memory_required : Nat
  cpu_time_used : Nat
deriving DecidableEq, Repr, Inhabited

/-- Python dict assignment `d[k] = v` on an association list: overwrite the
entry in place when the key is present, append a new entry otherwise. -/
def dinsert (ps : List (Nat × α)) (k : Nat) (v : α) : List (Nat × α) :=
  if ps.any (fun e => e.1 == k) then
    ps.map (fun e => if e.1 == k then (k, v) else e)
  else
    ps ++ [(k, v)]

/-- Python dict lookup `d.get(k)` on an association list. -/
def dfind (ps : List (Nat × α)) (k : Nat) : Option α :=
  (ps.find? (fun e => e.1 == k)).map (·.2)

/-- Mutation of the object stored at key `k` (Python objects are aliased, so
mutating an object reached through one reference updates the dict entry). -/
def dmodify (ps : List (Nat × α)) (k : Nat) (f : α → α) : List (Nat × α) :=
  ps.map (fun e => if e.1 == k then (e.1, f e.2) else e)

/-- The `ProcessScheduler` state. The Python object graph shares `Process`
objects between `processes`, `ready_queue` and `running_process`; the
embedding keeps the records in `processes` and refers to them by pid from
the queue and the running slot. -/
structure ProcessScheduler where
  ready_queue : List Nat
  running_process : Option Nat
  processes : List (Nat × Process)
  next_pid : Nat
  quantum : Nat
deriving Repr

/-- `ProcessScheduler.__init__`. -/
def ProcessScheduler.init : ProcessScheduler :=
  { ready_queue := [], running_process := none, processes := [],
    next_pid := 1, quantum := 3 }

/-- Read the `Process` object a pid refers to. In every state the program
reaches, the pid is a key of `processes`; the default is never read there. -/
def ProcessScheduler.getProc (s : ProcessScheduler) (pid : Nat) : Process :=
  (dfind s.processes pid).getD default

/-- `ProcessScheduler.create_process`. Builds the process in state `NEW`,
stores it, then sets the (shared) object to `READY` and enqueues it. -/
def ProcessScheduler.create_process (s : ProcessScheduler) (name : String)
    (priority : Int) (memory : Nat) : ProcessScheduler × Nat :=
  let pid := s.next_pid
  let process : Process :=
    { pid := pid, name := name, state := ProcessState.NEW,
      priority := priority, memory_required := memory, cpu_time_used := 0 }
  let process := { process with state := ProcessState.READY }
  ({ s with processes := dinsert s.processes pid process,
            next_pid := s.next_pid + 1,
            ready_queue := s.ready_queue ++ [pid] }, pid)

/-- Stable insertion into a descending-priority list: keep skipping entries
of strictly greater priority, so an inserted element lands before every
element of smaller-or-equal priority that follows. -/
def insertByPriority (pri : Nat → Int) (x : Nat) : List Nat → List Nat
  | [] => [x]
  | y :: ys => if pri x < pri y then y :: insertByPriority pri x ys else x :: y :: ys

/-- Model of Python `sorted(queue, key=lambda p: p.priority, reverse=True)`:
a stable sort by priority, descending. Any two stable sorts agree, so the
insertion sort below has the same output as the Timsort of the source; its
permutation, sortedness and stability are proved further down. -/
def sortByPriorityDesc (pri : Nat → Int) : List Nat → List Nat
  | [] => []
  | x :: xs => insertByPriority pri x (sortByPriorityDesc pri xs)

/-- The shared tail of `ProcessScheduler.schedule` (lines 53-60 of the
source): if the ready queue is non-empty, sort it by priority descending,
pop the front, mark it `RUNNING` and install it; otherwise return `None`. -/
def ProcessScheduler.selectNext (s : ProcessScheduler) :
    ProcessScheduler × Option Nat :=
  if s.ready_queue.isEmpty then (s, none)
  else
    match sortByPriorityDesc (fun pid => (s.getProc pid).priority) s.ready_queue with
    | [] => (s, none)
    | next :: rest =>
        ({ s with ready_queue := rest,
                  processes := dmodify s.processes next
                    (fun p => { p with state := ProcessState.RUNNING }),
                  running_process := some next }, some next)

/-- `ProcessScheduler.schedule`. -/
def ProcessScheduler.schedule (s : ProcessScheduler) :
    ProcessScheduler × Option Nat :=
  match s.running_process with
  | some rp =>
      if (s.getProc rp).cpu_time_used < s.quantum then (s, some rp)
      else
        let s1 := { s with
          processes := dmodify s.processes rp
            (fun p => { p with state := ProcessState.READY }),
          ready_queue := s.ready_queue ++ [rp] }
        s1.selectNext
  | none => s.selectNext

/-- `ProcessScheduler.terminate_process`. -/
def ProcessScheduler.terminate_process (s : ProcessScheduler) (pid : Nat) :
    ProcessScheduler :=
  if (dfind s.processes pid).isSome then
    let s1 := { s with
      processes := dmodify s.processes pid
        (fun p => { p with state := ProcessState.TERMINATED }) }
    match s1.running_process with
    | some rp => if rp == pid then { s1 with running_process := none } else s1
    | none => s1
  else s

/-- `ProcessScheduler.execute_cycle`. -/
def ProcessScheduler.execute_cycle (s : ProcessScheduler) : ProcessScheduler :=
  let (s1, current) := s.schedule
  match current with
  | some pid =>
      let s2 := { s1 with
        processes := dmodify s1.processes pid
          (fun p => { p with cpu_time_used := p.cpu_time_used + 1 }) }
      if (s2.getProc pid).cpu_time_used ≥ 5 then s2.terminate_process pid else s2
  | none => s1

/-- The `MemoryManager` state. Page-map values hold the owning pid; the
`allocated_at` timestamp is omitted (no claim observes it).
`available_memory` is an `Int`: the source can drive it negative, because
the availability check compares raw bytes while the decrement uses the
rounded page cost. -/
structure MemoryManager where
  total_memory : Int
  available_memory : Int
  memory_map : List (Nat × Nat)
  page_size : Nat
deriving Repr

/-- `MemoryManager.__init__` (default `total_memory = 1024*1024`). -/
def MemoryManager.init (total : Int) : MemoryManager :=
  { total_memory := total, available_memory := total, memory_map := [],
    page_size := 4096 }

/-- The allocation loop of `MemoryManager.allocate_memory`: each iteration
takes the CURRENT size of the page map as the fresh page id. After frees
this id can collide with a live key, in which case the dict assignment
overwrites that entry and the map does not grow. -/
def allocLoop (owner : Nat) : Nat → List (Nat × Nat) → List Nat →
    List (Nat × Nat) × List Nat
  | 0, m, acc => (m, acc)
  | n + 1, m, acc =>
      let page_id := m.length
      allocLoop owner n (dinsert m page_id owner) (acc ++ [page_id])

/-- `MemoryManager.allocate_memory`. The Python `raise MemoryError` is
modelled as `Except.error ()`; the raise happens before any mutation, so the
manager component of the pair is returned unchanged in that case. -/
def MemoryManager.allocate_memory (mm : MemoryManager) (ownerPid : Nat)
    (size : Nat) : MemoryManager × Except Unit (List Nat) :=
  if (size : Int) > mm.available_memory then (mm, Except.error ())
  else
    let pages_needed := (size + mm.page_size - 1) / mm.page_size
    let (m, allocated_pages) := allocLoop ownerPid pages_needed mm.memory_map []
    ({ mm with memory_map := m,
               available_memory :=
                 mm.available_memory - (pages_needed : Int) * (mm.page_size : Int) },
     Except.ok allocated_pages)

/-- `MemoryManager.free_memory`: collect the pages owned by the pid, delete
each from the map and add `page_size` back per page. The net effect of the
Python loop (keys are unique) is the filter and the single addition below. -/
def MemoryManager.free_memory (mm : MemoryManager) (process_pid : Nat) :
    MemoryManager :=
  let pages_to_free := (mm.memory_map.filter (fun e => e.2 == process_pid)).map (·.1)
  { mm with
    memory_map := mm.memory_map.filter (fun e => !(e.2 == process_pid)),
    available_memory :=
      mm.available_memory + (pages_to_free.length : Int) * (mm.page_size : Int) }

/-! ## Spec-side schedule algorithm (for the refinement claim)

The following definitions follow the WORDS of the specification for
`Schedule` (its four numbered steps), to be compared with
`ProcessScheduler.schedule`, which was translated from the source. -/

/-- Spec step 1 condition: a process is currently Running and its
cpu time used is strictly less than the quantum constant 3. -/
def specContinue (s : ProcessScheduler) : Bool :=
  match s.running_process with
  | some rp => (s.getProc rp).cpu_time_used < 3
  | none => false

/-- Spec step 2: demote the running process (if any) to Ready and append it
to the back of the ready queue. -/
def demoteRunning (s : ProcessScheduler) : ProcessScheduler :=
  match s.running_process with
  | some rp =>
      { s with processes := dmodify s.processes rp
                 (fun p => { p with state := ProcessState.READY }),
               ready_queue := s.ready_queue ++ [rp] }
  | none => s

/-- Spec steps 3 and 4: if the ready queue is non-empty, stable-sort it by
priority descending, pop the front, set its state to Running and install
it; otherwise return none. -/
def selectSpec (s : ProcessScheduler) : ProcessScheduler × Option Nat :=
  match sortByPriorityDesc (fun pid => (s.getProc pid).priority) s.ready_queue with
  | [] => (s, none)
  | next :: rest =>
      ({ s with ready_queue := rest,
                processes := dmodify s.processes next
                  (fun p => { p with state := ProcessState.RUNNING }),
                running_process := some next }, some next)

/-- Modelled from the claim wording of C3: the schedule algorithm as the
spec states it, steps 1 to 4 in order. -/
def scheduleSpec (s : ProcessScheduler) : ProcessScheduler × Option Nat :=
  if specContinue s then (s, s.running_process)
  else selectSpec (demoteRunning s)

/-! ## Properties of the stable sort -/

theorem insertByPriority_perm (pri : Nat → Int) (x : Nat) (l : List Nat) :
    (insertByPriority pri x l).Perm (x :: l) := by
  induction l with
  | nil => simp [insertByPriority]
  | cons y ys ih =>
      rw [insertByPriority]
      split
      · exact (ih.cons y).trans (List.Perm.swap x y ys)
      · exact List.Perm.refl _

theorem insertByPriority_ne_nil (pri : Nat → Int) (x : Nat) (l : List Nat) :
    insertByPriority pri x l ≠ [] := by
  cases l with
  | nil => simp [insertByPriority]
  | cons y ys => rw [insertByPriority]; split <;> simp

theorem sortByPriorityDesc_perm (pri : Nat → Int) (l : List Nat) :
    (sortByPriorityDesc pri l).Perm l := by
  induction l with
  | nil => simp [sortByPriorityDesc]
  | cons x xs ih =>
      rw [sortByPriorityDesc]
      exact (insertByPriority_perm pri x _).trans (ih.cons x)

theorem sortByPriorityDesc_ne_nil (pri : Nat → Int) (l : List Nat) (h : l ≠ []) :
    sortByPriorityDesc pri l ≠ [] := by
  cases l with
  | nil => exact absurd rfl h
  | cons x xs => rw [sortByPriorityDesc]; exact insertByPriority_ne_nil pri x _

theorem insertByPriority_sorted (pri : Nat → Int) (x : Nat) (l : List Nat)
    (h : l.Pairwise (fun a b => pri b ≤ pri a)) :
    (insertByPriority pri x l).Pairwise (fun a b => pri b ≤ pri a) := by
  induction l with
  | nil => simp [insertByPriority]
  | cons y ys ih =>
      rw [List.pairwise_cons] at h
      obtain ⟨h1, h2⟩ := h
      rw [insertByPriority]
      split
      · rename_i hlt
        rw [List.pairwise_cons]
        refine ⟨fun b hb => ?_, ih h2⟩
        rcases List.mem_cons.1 (((insertByPriority_perm pri x ys).mem_iff).1 hb) with
          hbx | hby
        · subst hbx; exact le_of_lt hlt
        · exact h1 b hby
      · rename_i hge
        rw [List.pairwise_cons]
        refine ⟨fun b hb => ?_, List.pairwise_cons.2 ⟨h1, h2⟩⟩
        rcases List.mem_cons.1 hb with hbx | hby
        · subst hbx; exact le_of_not_lt hge
        · exact le_trans (h1 b hby) (le_of_not_lt hge)

theorem sortByPriorityDesc_sorted (pri : Nat → Int) (l : List Nat) :
    (sortByPriorityDesc pri l).Pairwise (fun a b => pri b ≤ pri a) := by
  induction l with
  | nil => simp [sortByPriorityDesc]
  | cons x xs ih =>
      rw [sortByPriorityDesc]
      exact insertByPriority_sorted pri x _ ih

theorem filter_insertByPriority (pri : Nat → Int) (x : Nat) (l : List Nat)
    (q : Int) :
    (insertByPriority pri x l).filter (fun y => pri y == q)
      = (x :: l).filter (fun y => pri y == q) := by
  induction l with
  | nil => rfl
  | cons y ys ih =>
      rw [insertByPriority]
      split
      · rename_i hlt
        by_cases hy : pri y == q
        · by_cases hx : pri x == q
          · exfalso
            rw [beq_iff_eq] at hy hx
            rw [hy, hx] at hlt
            exact lt_irrefl q hlt
          · simp only [List.filter_cons, hy, hx, ih, if_true, if_false,
              Bool.false_eq_true, ite_false, ite_true]
        · simp only [List.filter_cons, hy, ih, Bool.false_eq_true, ite_false]
      · rfl

theorem sortByPriorityDesc_stable (pri : Nat → Int) (l : List Nat) (q : Int) :
    (sortByPriorityDesc pri l).filter (fun y => pri y == q)
      = l.filter (fun y => pri y == q) := by
  induction l with
  | nil => rfl
  | cons x xs ih =>
      rw [sortByPriorityDesc, filter_insertByPriority, List.filter_cons,
        List.filter_cons, ih]

/-! ## Memory-manager invariants and helper lemmas -/

/-- The conservation invariant of the spec: available memory plus 4096 bytes
per live page equals total memory. -/
def memInv (mm : MemoryManager) : Prop :=
  mm.available_memory + 4096 * (mm.memory_map.length : Int) = mm.total_memory

instance (mm : MemoryManager) : Decidable (memInv mm) :=
  inferInstanceAs (Decidable (_ = _))

/-- Every live page id is below the size of the page map. This holds in any
state produced by allocations alone and makes the next assigned id fresh;
`free_memory` can break it. -/
def pagesContiguous (mm : MemoryManager) : Prop :=
  ∀ e ∈ mm.memory_map, e.1 < mm.memory_map.length

instance (mm : MemoryManager) : Decidable (pagesContiguous mm) :=
  inferInstanceAs (Decidable (∀ e ∈ mm.memory_map, e.1 < mm.memory_map.length))

theorem allocLoop_fresh (owner : Nat) (n : Nat) :
    ∀ (m : List (Nat × Nat)) (acc : List Nat),
      (∀ e ∈ m, e.1 < m.length) →
      allocLoop owner n m acc
        = (m ++ (List.range' m.length n).map (fun i => (i, owner)),
           acc ++ List.range' m.length n) := by
  induction n with
  | zero => intro m acc _; simp [allocLoop, List.range']
  | succ k ih =>
      intro m acc h
      rw [allocLoop]
      have hany : m.any (fun e => e.1 == m.length) = false := by
        rw [List.any_eq_false]
        intro e he
        simpa using Nat.ne_of_lt (h e he)
      have hdin : dinsert m m.length owner = m ++ [(m.length, owner)] := by
        rw [dinsert, hany]
        simp
      rw [hdin]
      have h2 : ∀ e ∈ m ++ [(m.length, owner)],
          e.1 < (m ++ [(m.length, owner)]).length := by
        intro e he
        rw [List.length_append, List.length_singleton]
        rcases List.mem_append.1 he with hm | hs
        · exact Nat.lt_succ_of_lt (h e hm)
        · rw [List.mem_singleton] at hs
          rw [hs]
          exact Nat.lt_succ_self _
      rw [ih _ _ h2]
      rw [List.length_append, List.length_singleton, List.range'_succ]
      simp [List.append_assoc]

theorem length_filter_add {α : Type} (p : α → Bool) (l : List α) :
    (l.filter p).length + (l.filter (fun a => !(p a))).length = l.length := by
  induction l with
  | nil => rfl
  | cons a l ih =>
      by_cases h : p a <;> simp [List.filter_cons, h] <;> omega

theorem allocate_memory_error (mm : MemoryManager) (owner size : Nat)
    (hsz : (size : Int) > mm.available_memory) :
    mm.allocate_memory owner size = (mm, Except.error ()) := by
  rw [MemoryManager.allocate_memory, if_pos hsz]

theorem allocate_memory_ok (mm : MemoryManager) (owner size : Nat)
    (hsz : ¬ (size : Int) > mm.available_memory) (hfresh : pagesContiguous mm) :
    mm.allocate_memory owner size
      = ({ mm with
            memory_map := mm.memory_map ++
              (List.range' mm.memory_map.length
                ((size + mm.page_size - 1) / mm.page_size)).map (fun i => (i, owner)),
            available_memory := mm.available_memory -
              (((size + mm.page_size - 1) / mm.page_size : Nat) : Int) *
                (mm.page_size : Int) },
         Except.ok (List.range' mm.memory_map.length
           ((size + mm.page_size - 1) / mm.page_size))) := by
  have hloop := allocLoop_fresh owner ((size + mm.page_size - 1) / mm.page_size)
    mm.memory_map [] hfresh
  rw [MemoryManager.allocate_memory, if_neg hsz]
  simp only [hloop, List.nil_append]

theorem free_memory_memInv (mm : MemoryManager) (pid : Nat)
    (hps : mm.page_size = 4096) (hI : memInv mm) : memInv (mm.free_memory pid) := by
  unfold MemoryManager.free_memory memInv at *
  have hsum := length_filter_add (fun e => e.2 == pid) mm.memory_map
  simp only [List.length_map, hps]
  push_cast at *
  omega

/-- C1: the claimed conservation invariant, amended. `free_memory` always
preserves it, and `allocate_memory` preserves it in any state where every
live page id is below the map size (so the assigned ids are fresh); after a
free has left a gap, an allocation can overwrite a live page and break the
invariant, as the counterexample shows. -/
theorem c1_memory_conservation (mm : MemoryManager) (owner size pid : Nat)
    (hps : mm.page_size = 4096) (hfresh : pagesContiguous mm) :
    (memInv mm → memInv (mm.allocate_memory owner size).1) ∧
    pagesContiguous (mm.allocate_memory owner size).1 ∧
    (memInv mm → memInv (mm.free_memory pid)) := by
  refine ⟨?_, ?_, free_memory_memInv mm pid hps⟩ <;>
    by_cases hsz : (size : Int) > mm.available_memory
  · rw [allocate_memory_error mm owner size hsz]
    exact id
  · rw [allocate_memory_ok mm owner size hsz hfresh]
    intro hI
    unfold memInv at *
    simp only [List.length_append, List.length_map, List.length_range', hps]
    push_cast at *
    omega
  · rw [allocate_memory_error mm owner size hsz]
    exact hfresh
  · rw [allocate_memory_ok mm owner size hsz hfresh]
    intro e he
    simp only [List.length_append, List.length_map, List.length_range']
    rcases List.mem_append.1 he with hm | hr
    · exact Nat.lt_of_lt_of_le (hfresh e hm) (Nat.le_add_right _ _)
    · obtain ⟨i, hi, rfl⟩ := List.mem_map.1 hr
      exact (List.mem_range'_1.1 hi).2

/-- C1 counterexample: allocate one page each for processes 1 and 2, free
the pages of process 1, then allocate one page for process 3. The new page
id collides with the live page of process 2 and overwrites it, so
available plus 4096 per live page no longer equals total. -/
theorem c1_counterexample :
    ¬ memInv (((((MemoryManager.init (1024*1024)).allocate_memory 1 4096).1.allocate_memory
        2 4096).1.free_memory 1).allocate_memory 3 4096).1 := by decide

/-- C1 witness: the amended theorem applied to a fresh manager. -/
theorem c1_memory_conservation_witness :
    (memInv (MemoryManager.init (1024*1024)) →
      memInv ((MemoryManager.init (1024*1024)).allocate_memory 1 5000).1) ∧
    pagesContiguous ((MemoryManager.init (1024*1024)).allocate_memory 1 5000).1 ∧
    (memInv (MemoryManager.init (1024*1024)) →
      memInv ((MemoryManager.init (1024*1024)).free_memory 7)) :=
  c1_memory_conservation (MemoryManager.init (1024*1024)) 1 5000 7 rfl (by decide)

/-- C2 (amended): page ids are assigned as the current page-map size. As
long as every live page id is below the map size (true for any run of
allocations alone, from a fresh manager), a successful allocation returns
the consecutive ids mapSize, mapSize+1, ..., which are strictly increasing,
pairwise distinct, and distinct from every live page id, and the state
keeps that shape; but an id freed by `free_memory` CAN be reissued later,
as the counterexample shows. -/
theorem c2_page_ids (mm : MemoryManager) (owner size : Nat)
    (hfresh : pagesContiguous mm) (hsz : ¬ (size : Int) > mm.available_memory) :
    (mm.allocate_memory owner size).2
      = Except.ok (List.range' mm.memory_map.length
          ((size + mm.page_size - 1) / mm.page_size)) ∧
    (List.range' mm.memory_map.length
      ((size + mm.page_size - 1) / mm.page_size)).Pairwise (· < ·) ∧
    (List.range' mm.memory_map.length
      ((size + mm.page_size - 1) / mm.page_size)).Nodup ∧
    (∀ i ∈ List.range' mm.memory_map.length
        ((size + mm.page_size - 1) / mm.page_size),
      ∀ e ∈ mm.memory_map, e.1 ≠ i) ∧
    pagesContiguous (mm.allocate_memory owner size).1 := by
  have hok := allocate_memory_ok mm owner size hsz hfresh
  refine ⟨by rw [hok], List.pairwise_lt_range' _ _, List.nodup_range' _ _,
    fun i hi e he => ?_, ?_⟩
  · have h1 := hfresh e he
    have h2 := (List.mem_range'_1.1 hi).1
    omega
  · rw [hok]
    intro e he
    simp only [List.length_append, List.length_map, List.length_range']
    rcases List.mem_append.1 he with hm | hr
    · exact Nat.lt_of_lt_of_le (hfresh e hm) (Nat.le_add_right _ _)
    · obtain ⟨i, hi, rfl⟩ := List.mem_map.1 hr
      exact (List.mem_range'_1.1 hi).2

/-- C2 counterexample: allocate a page for process 1 (page id 0), free it,
allocate a page for process 2 — id 0 is returned again, although a page
with id 0 previously existed. -/
theorem c2_counterexample :
    ((MemoryManager.init (1024*1024)).allocate_memory 1 4096).2 = Except.ok [0] ∧
    ((((MemoryManager.init (1024*1024)).allocate_memory 1 4096).1.free_memory
        1).allocate_memory 2 4096).2 = Except.ok [0] :=
  ⟨rfl, rfl⟩

/-- C2 witness: the amended theorem applied to a fresh manager and a
9000-byte request (three pages, ids 0, 1, 2). -/
theorem c2_page_ids_witness :
    ((MemoryManager.init (1024*1024)).allocate_memory 1 9000).2
      = Except.ok (List.range' (MemoryManager.init (1024*1024)).memory_map.length
          ((9000 + (MemoryManager.init (1024*1024)).page_size - 1) /
            (MemoryManager.init (1024*1024)).page_size)) ∧
    (List.range' (MemoryManager.init (1024*1024)).memory_map.length
      ((9000 + (MemoryManager.init (1024*1024)).page_size - 1) /
        (MemoryManager.init (1024*1024)).page_size)).Pairwise (· < ·) ∧
    (List.range' (MemoryManager.init (1024*1024)).memory_map.length
      ((9000 + (MemoryManager.init (1024*1024)).page_size - 1) /
        (MemoryManager.init (1024*1024)).page_size)).Nodup ∧
    (∀ i ∈ List.range' (MemoryManager.init (1024*1024)).memory_map.length
        ((9000 + (MemoryManager.init (1024*1024)).page_size - 1) /
          (MemoryManager.init (1024*1024)).page_size),
      ∀ e ∈ (MemoryManager.init (1024*1024)).memory_map, e.1 ≠ i) ∧
    pagesContiguous ((MemoryManager.init (1024*1024)).allocate_memory 1 9000).1 :=
  c2_page_ids (MemoryManager.init (1024*1024)) 1 9000 (by decide) (by decide)

/-- C5: `allocate_memory` reports the insufficient-memory error exactly when
the requested byte count exceeds available memory (raw bytes, not the
rounded page cost), and in that case the manager is unchanged. -/
theorem c5_insufficient_memory (mm : MemoryManager) (owner size : Nat) :
    ((mm.allocate_memory owner size).2 = Except.error ()
        ↔ (size : Int) > mm.available_memory) ∧
    ((size : Int) > mm.available_memory → (mm.allocate_memory owner size).1 = mm) := by
  by_cases hsz : (size : Int) > mm.available_memory
  · rw [allocate_memory_error mm owner size hsz]
    exact ⟨⟨fun _ => hsz, fun _ => rfl⟩, fun _ => rfl⟩
  · constructor
    · constructor
      · intro herr
        exfalso
        rw [MemoryManager.allocate_memory, if_neg hsz] at herr
        simp at herr
      · intro h
        exact absurd h hsz
    · intro h
      exact absurd h hsz

/-- C5 witness: a 200-byte request against a 100-byte manager fails and
leaves the manager unchanged. -/
theorem c5_insufficient_memory_witness :
    (((MemoryManager.init 100).allocate_memory 1 200).2 = Except.error ()
        ↔ (200 : Int) > (MemoryManager.init 100).available_memory) ∧
    ((200 : Int) > (MemoryManager.init 100).available_memory →
      ((MemoryManager.init 100).allocate_memory 1 200).1 = MemoryManager.init 100) :=
  c5_insufficient_memory (MemoryManager.init 100) 1 200

example :
    (((MemoryManager.init (1024*1024)).allocate_memory 1 5000).1).available_memory =
      1024*1024 - 8192 := by rfl

/-- C7 (amended): on success, in a state where every live page id is below
the map size (fresh manager or allocation-only history), `allocate_memory`
adds exactly pagesNeeded = (size + 4095) / 4096 page records owned by the
process, decrements available memory by pagesNeeded * 4096, and returns the
pagesNeeded new page ids. After frees have left a gap, the decrement still
happens but assigned ids can overwrite live pages, so fewer records are
added (see the counterexample). -/
theorem c7_allocate_success (mm : MemoryManager) (owner size : Nat)
    (hps : mm.page_size = 4096) (hfresh : pagesContiguous mm)
    (hsz : ¬ (size : Int) > mm.available_memory) :
    (mm.allocate_memory owner size).2
      = Except.ok (List.range' mm.memory_map.length ((size + 4095) / 4096)) ∧
    (mm.allocate_memory owner size).1.memory_map
      = mm.memory_map ++ (List.range' mm.memory_map.length
          ((size + 4095) / 4096)).map (fun i => (i, owner)) ∧
    (mm.allocate_memory owner size).1.memory_map.length
      = mm.memory_map.length + (size + 4095) / 4096 ∧
    (mm.allocate_memory owner size).1.available_memory
      = mm.available_memory - (((size + 4095) / 4096 : Nat) : Int) * 4096 := by
  have hok := allocate_memory_ok mm owner size hsz hfresh
  rw [hps, (by omega : size + 4096 - 1 = size + 4095)] at hok
  rw [hok]
  refine ⟨rfl, rfl, ?_, rfl⟩
  simp [List.length_append, List.length_map, List.length_range']

/-- C7 counterexample: after allocating a page each for processes 1 and 2
and freeing the page of process 1, a successful 8192-byte request for
process 3 (pagesNeeded = 2) returns the duplicate id list [1, 1] and adds
ZERO new page records: the map had one entry before and still has one
entry afterwards. -/
theorem c7_counterexample :
    (((((MemoryManager.init (1024*1024)).allocate_memory 1 4096).1.allocate_memory
        2 4096).1.free_memory 1).allocate_memory 3 8192).2 = Except.ok [1, 1] ∧
    (((((MemoryManager.init (1024*1024)).allocate_memory 1 4096).1.allocate_memory
        2 4096).1.free_memory 1).allocate_memory 3 8192).1.memory_map.length = 1 ∧
    ((((MemoryManager.init (1024*1024)).allocate_memory 1 4096).1.allocate_memory
        2 4096).1.free_memory 1).memory_map.length = 1 :=
  ⟨rfl, rfl, rfl⟩

/-- C7 witness: a 5000-byte request on a fresh manager allocates 2 pages
and decrements available memory by 8192, not 5000. -/
theorem c7_allocate_success_witness :
    ((MemoryManager.init (1024*1024)).allocate_memory 1 5000).2
      = Except.ok (List.range' (MemoryManager.init (1024*1024)).memory_map.length
          ((5000 + 4095) / 4096)) ∧
    ((MemoryManager.init (1024*1024)).allocate_memory 1 5000).1.memory_map
      = (MemoryManager.init (1024*1024)).memory_map ++
          (List.range' (MemoryManager.init (1024*1024)).memory_map.length
            ((5000 + 4095) / 4096)).map (fun i => (i, 1)) ∧
    ((MemoryManager.init (1024*1024)).allocate_memory 1 5000).1.memory_map.length
      = (MemoryManager.init (1024*1024)).memory_map.length + (5000 + 4095) / 4096 ∧
    ((MemoryManager.init (1024*1024)).allocate_memory 1 5000).1.available_memory
      = (MemoryManager.init (1024*1024)).available_memory -
          (((5000 + 4095) / 4096 : Nat) : Int) * 4096 :=
  c7_allocate_success (MemoryManager.init (1024*1024)) 1 5000 rfl (by decide) (by decide)

/-! ## Scheduler theorems -/

theorem selectNext_eq_selectSpec (s : ProcessScheduler) :
    s.selectNext = selectSpec s := by
  unfold ProcessScheduler.selectNext selectSpec
  cases hrq : s.ready_queue with
  | nil => simp [hrq, sortByPriorityDesc]
  | cons x xs => simp [hrq]

/-- C3: `schedule` implements exactly the four-step algorithm of the spec
(`scheduleSpec`, written from the claim wording) whenever the quantum field
holds its initial value 3; moreover the sort used in step 3 is a genuine
stable sort by priority descending: a permutation, sorted, and preserving
the relative order of equal-priority entries. -/
theorem c3_schedule_algorithm (s : ProcessScheduler) (hq : s.quantum = 3) :
    s.schedule = scheduleSpec s ∧
    ∀ (pri : Nat → Int) (l : List Nat) (q : Int),
      (sortByPriorityDesc pri l).Perm l ∧
      (sortByPriorityDesc pri l).Pairwise (fun a b => pri b ≤ pri a) ∧
      (sortByPriorityDesc pri l).filter (fun y => pri y == q)
        = l.filter (fun y => pri y == q) := by
  constructor
  · unfold ProcessScheduler.schedule scheduleSpec specContinue demoteRunning
    cases hrp : s.running_process with
    | none => simp [selectNext_eq_selectSpec]
    | some rp =>
        rw [hq]
        by_cases hc : (s.getProc rp).cpu_time_used < 3
        · simp [hc]
        · simp [hc, selectNext_eq_selectSpec]
  · exact fun pri l q =>
      ⟨sortByPriorityDesc_perm pri l, sortByPriorityDesc_sorted pri l,
       sortByPriorityDesc_stable pri l q⟩

/-- C3 witness: the refinement at the initial scheduler, and the stable-sort
properties at a concrete priority function and list. -/
theorem c3_schedule_algorithm_witness :
    ProcessScheduler.init.schedule = scheduleSpec ProcessScheduler.init ∧
    (sortByPriorityDesc (fun pid => (pid : Int)) [2, 1, 3]).Perm [2, 1, 3] ∧
    (sortByPriorityDesc (fun pid => (pid : Int)) [2, 1, 3]).Pairwise
      (fun (a b : Nat) => (b : Int) ≤ (a : Int)) ∧
    (sortByPriorityDesc (fun pid => (pid : Int)) [2, 1, 3]).filter
      (fun (y : Nat) => (y : Int) == (2 : Int))
      = [2, 1, 3].filter (fun (y : Nat) => (y : Int) == (2 : Int)) :=
  ⟨(c3_schedule_algorithm ProcessScheduler.init rfl).1,
   ((c3_schedule_algorithm ProcessScheduler.init rfl).2 (fun pid => (pid : Int))
      [2, 1, 3] 2).1,
   ((c3_schedule_algorithm ProcessScheduler.init rfl).2 (fun pid => (pid : Int))
      [2, 1, 3] 2).2.1,
   ((c3_schedule_algorithm ProcessScheduler.init rfl).2 (fun pid => (pid : Int))
      [2, 1, 3] 2).2.2⟩

/-- The invariant of C4: every process record in state RUNNING is the one
the running slot points to. -/
def runningInv (s : ProcessScheduler) : Prop :=
  ∀ e ∈ s.processes, e.2.state = ProcessState.RUNNING →
    s.running_process = some e.1

instance (s : ProcessScheduler) : Decidable (runningInv s) :=
  inferInstanceAs (Decidable (∀ e ∈ s.processes,
    e.2.state = ProcessState.RUNNING → s.running_process = some e.1))

theorem mem_dmodify {α : Type} (ps : List (Nat × α)) (k : Nat) (f : α → α)
    (e : Nat × α) (he : e ∈ dmodify ps k f) :
    ∃ e2 ∈ ps, (e2.1 = k ∧ e = (e2.1, f e2.2)) ∨ (¬ e2.1 = k ∧ e = e2) := by
  unfold dmodify at he
  obtain ⟨e2, he2, heq⟩ := List.mem_map.1 he
  refine ⟨e2, he2, ?_⟩
  by_cases h : e2.1 = k
  · left
    refine ⟨h, ?_⟩
    rw [← heq]
    simp [h]
  · right
    refine ⟨h, ?_⟩
    rw [← heq]
    simp [h]

theorem map_fst_dmodify {α : Type} (ps : List (Nat × α)) (k : Nat) (f : α → α) :
    (dmodify ps k f).map (·.1) = ps.map (·.1) := by
  induction ps with
  | nil => rfl
  | cons e ps ih =>
      simp only [dmodify, List.map_cons] at *
      rw [ih]
      congr 1
      split <;> rfl

theorem selectNext_runningInv (s : ProcessScheduler)
    (h : ∀ e ∈ s.processes, e.2.state ≠ ProcessState.RUNNING) :
    runningInv (s.selectNext).1 := by
  by_cases hq : s.ready_queue.isEmpty
  · rw [ProcessScheduler.selectNext, if_pos hq]
    exact fun e he hR => absurd hR (h e he)
  · cases hs : sortByPriorityDesc (fun pid => (s.getProc pid).priority)
        s.ready_queue with
    | nil =>
        rw [ProcessScheduler.selectNext, if_neg hq, hs]
        exact fun e he hR => absurd hR (h e he)
    | cons next rest =>
        rw [ProcessScheduler.selectNext, if_neg hq, hs]
        intro e he hR
        have hmem : e ∈ dmodify s.processes next
            (fun p => { p with state := ProcessState.RUNNING }) := he
        obtain ⟨e2, he2, hcase⟩ := mem_dmodify _ _ _ e hmem
        rcases hcase with ⟨hk, hee⟩ | ⟨hk, hee⟩
        · show some next = some e.1
          rw [hee, hk]
        · exact absurd (hee ▸ hR) (h e2 he2)

theorem schedule_runningInv (s : ProcessScheduler) (hinv : runningInv s) :
    runningInv (s.schedule).1 := by
  unfold ProcessScheduler.schedule
  cases hrp : s.running_process with
  | none =>
      apply selectNext_runningInv
      intro e he hR
      have := hinv e he hR
      rw [hrp] at this
      exact Option.noConfusion this
  | some rp =>
      by_cases hc : (s.getProc rp).cpu_time_used < s.quantum
      · simpa [hc, hrp] using hinv
      · simp only [hc, if_false]
        apply selectNext_runningInv
        intro e he hR
        have hmem : e ∈ dmodify s.processes rp
            (fun p => { p with state := ProcessState.READY }) := he
        obtain ⟨e2, he2, hcase⟩ := mem_dmodify _ _ _ e hmem
        rcases hcase with ⟨hk, hee⟩ | ⟨hk, hee⟩
        · rw [hee] at hR
          exact ProcessState.noConfusion hR
        · have := hinv e2 he2 (hee ▸ hR)
          rw [hrp] at this
          exact absurd (Option.some.inj this).symm hk

theorem schedule_map_fst (s : ProcessScheduler) :
    (s.schedule).1.processes.map (·.1) = s.processes.map (·.1) := by
  have hsel : ∀ t : ProcessScheduler,
      (t.selectNext).1.processes.map (·.1) = t.processes.map (·.1) := by
    intro t
    by_cases hq : t.ready_queue.isEmpty
    · rw [ProcessScheduler.selectNext, if_pos hq]
    · cases hs : sortByPriorityDesc (fun pid => (t.getProc pid).priority)
          t.ready_queue with
      | nil => rw [ProcessScheduler.selectNext, if_neg hq, hs]
      | cons next rest =>
          rw [ProcessScheduler.selectNext, if_neg hq, hs]
          exact map_fst_dmodify t.processes next
            (fun p => { p with state := ProcessState.RUNNING })
  unfold ProcessScheduler.schedule
  cases hrp : s.running_process with
  | none => exact hsel s
  | some rp =>
      by_cases hc : (s.getProc rp).cpu_time_used < s.quantum
      · simp [hc]
      · simp only [hc, if_false]
        rw [hsel]
        exact map_fst_dmodify s.processes rp
          (fun p => { p with state := ProcessState.READY })

theorem countP_le_one_of_all_eq (l : List (Nat × Process)) (r : Nat)
    (P : Nat × Process → Bool) (hnd : (l.map (·.1)).Nodup)
    (h : ∀ e ∈ l, P e → e.1 = r) : l.countP P ≤ 1 := by
  induction l with
  | nil => simp
  | cons e l ih =>
      rw [List.map_cons, List.nodup_cons] at hnd
      obtain ⟨hne, hnd2⟩ := hnd
      rw [List.countP_cons]
      by_cases hPe : P e
      · have hz : l.countP P = 0 := by
          rw [List.countP_eq_zero]
          intro a ha hPa
          have h1 := h e (List.mem_cons_self e l) hPe
          have h2 := h a (List.mem_cons_of_mem e ha) hPa
          exact hne (by
            rw [h1, ← h2]
            exact List.mem_map.2 ⟨a, ha, rfl⟩)
        simp [hPe, hz]
      · simp only [hPe, if_false]
        exact ih hnd2 (fun a ha hP => h a (List.mem_cons_of_mem e ha) hP)


theorem runningInv_countP (t : ProcessScheduler) (hinv : runningInv t)
    (hnd : (t.processes.map (·.1)).Nodup) :
    t.processes.countP (fun e => e.2.state == ProcessState.RUNNING) ≤ 1 := by
  cases hr : t.running_process with
  | none =>
      have hz : t.processes.countP (fun e => e.2.state == ProcessState.RUNNING)
          = 0 := by
        rw [List.countP_eq_zero]
        intro e he hP
        rw [beq_iff_eq] at hP
        have := hinv e he hP
        rw [hr] at this
        exact Option.noConfusion this
      omega
  | some r =>
      apply countP_le_one_of_all_eq _ r _ hnd
      intro e he hP
      rw [beq_iff_eq] at hP
      have := hinv e he hP
      rw [hr] at this
      exact (Option.some.inj this).symm

/-- C4: a `schedule` call preserves the invariant that every RUNNING record
is the one held in the running slot; with distinct pids in the table it
follows that at most one process is RUNNING after the call. The hypotheses
hold in every state the program constructs. -/
theorem c4_at_most_one_running (s : ProcessScheduler) (hinv : runningInv s)
    (hnd : (s.processes.map (·.1)).Nodup) :
    runningInv (s.schedule).1 ∧
    (s.schedule).1.processes.countP
      (fun e => e.2.state == ProcessState.RUNNING) ≤ 1 := by
  have h1 := schedule_runningInv s hinv
  have h2 : ((s.schedule).1.processes.map (·.1)).Nodup := by
    rw [schedule_map_fst]
    exact hnd
  exact ⟨h1, runningInv_countP _ h1 h2⟩

/-- Display names used in concrete runs (the simulation of the source uses
Spanish process names; the values are irrelevant to every claim). -/
def nameA : String := "navegador"

def nameB : String := "editor"

/-- C4 witness: the theorem applied to a scheduler holding two READY
processes of priorities 2 and 1. -/
theorem c4_at_most_one_running_witness :
    runningInv ((((ProcessScheduler.init.create_process nameA 2 1024).1.create_process
        nameB 1 1024).1).schedule).1 ∧
    ((((ProcessScheduler.init.create_process nameA 2 1024).1.create_process
        nameB 1 1024).1).schedule).1.processes.countP
      (fun e => e.2.state == ProcessState.RUNNING) ≤ 1 :=
  c4_at_most_one_running
    (((ProcessScheduler.init.create_process nameA 2 1024).1.create_process
        nameB 1 1024).1)
    (by decide) (by decide)

theorem dfind_dmodify {α : Type} (ps : List (Nat × α)) (k : Nat) (f : α → α) :
    dfind (dmodify ps k f) k = (dfind ps k).map f := by
  induction ps with
  | nil => rfl
  | cons e ps ih =>
      simp only [dmodify, List.map_cons]
      by_cases h : (e.1 == k) = true
      · rw [if_pos h]
        unfold dfind
        rw [@List.find?_cons_of_pos _ (fun x => x.1 == k) (e.1, f e.2) _ h,
            @List.find?_cons_of_pos _ (fun x => x.1 == k) e ps h]
        rfl
      · rw [if_neg h]
        unfold dfind
        rw [@List.find?_cons_of_neg _ (fun x => x.1 == k) e _ h,
            @List.find?_cons_of_neg _ (fun x => x.1 == k) e ps h]
        exact ih

theorem selectNext_running_some (s : ProcessScheduler) (pid : Nat)
    (h : (s.selectNext).2 = some pid) :
    (s.selectNext).1.running_process = some pid := by
  by_cases hq : s.ready_queue.isEmpty
  · rw [ProcessScheduler.selectNext, if_pos hq] at h
    exact Option.noConfusion h
  · cases hs : sortByPriorityDesc (fun pid2 => (s.getProc pid2).priority)
        s.ready_queue with
    | nil =>
        rw [ProcessScheduler.selectNext, if_neg hq, hs] at h
        exact Option.noConfusion h
    | cons next rest =>
        rw [ProcessScheduler.selectNext, if_neg hq, hs] at h ⊢
        exact h

theorem schedule_running_some (s : ProcessScheduler) (pid : Nat)
    (h : (s.schedule).2 = some pid) :
    (s.schedule).1.running_process = some pid := by
  rw [ProcessScheduler.schedule] at h ⊢
  cases hrp : s.running_process with
  | none =>
      rw [hrp] at h
      exact selectNext_running_some s pid h
  | some rp =>
      rw [hrp] at h
      by_cases hc : (s.getProc rp).cpu_time_used < s.quantum
      · simp only [hc, if_true] at h ⊢
        rw [hrp]
        exact h
      · simp only [hc, if_false] at h ⊢
        exact selectNext_running_some _ pid h

theorem terminate_process_of_running (s : ProcessScheduler) (pid : Nat)
    (hmem : (dfind s.processes pid).isSome)
    (hr : s.running_process = some pid) :
    s.terminate_process pid
      = { s with processes := (dmodify s.processes pid
                   (fun q => { q with state := ProcessState.TERMINATED })),
                 running_process := none } := by
  rw [ProcessScheduler.terminate_process, if_pos hmem]
  simp only [hr, beq_self_eq_true, if_true]

/-- The intermediate state of `execute_cycle` after the returned process has
its cpu time incremented (the body of lines 64-65 of the source). -/
def tickIncrement (s1 : ProcessScheduler) (pid : Nat) : ProcessScheduler :=
  { s1 with processes := (dmodify s1.processes pid
      (fun p => { p with cpu_time_used := p.cpu_time_used + 1 })) }

/-- C6: `execute_cycle` calls `schedule`; when a process is returned its
cpu time used is incremented by exactly 1, and whenever the new value
reaches the threshold 5 the process is set to TERMINATED and removed from
the running slot within the same tick. The membership hypothesis holds in
every state the program constructs. -/
theorem c6_execute_cycle (s : ProcessScheduler) (pid : Nat)
    (hsched : (s.schedule).2 = some pid)
    (hmem : (dfind (s.schedule).1.processes pid).isSome) :
    ((s.execute_cycle).getProc pid).cpu_time_used
      = ((s.schedule).1.getProc pid).cpu_time_used + 1 ∧
    (5 ≤ ((s.schedule).1.getProc pid).cpu_time_used + 1 →
      ((s.execute_cycle).getProc pid).state = ProcessState.TERMINATED ∧
      (s.execute_cycle).running_process = none) := by
  obtain ⟨p0, hp0⟩ := Option.isSome_iff_exists.1 hmem
  have hrun := schedule_running_some s pid hsched
  have hpair : s.schedule = ((s.schedule).1, some pid) := by rw [← hsched]
  have hget1 : (s.schedule).1.getProc pid = p0 := by
    unfold ProcessScheduler.getProc
    rw [hp0]
    rfl
  have hexec : s.execute_cycle
      = (if ((tickIncrement (s.schedule).1 pid).getProc pid).cpu_time_used ≥ 5
         then (tickIncrement (s.schedule).1 pid).terminate_process pid
         else tickIncrement (s.schedule).1 pid) := by
    conv_lhs => rw [ProcessScheduler.execute_cycle, hpair]
    rfl
  have hdf2 : dfind (tickIncrement (s.schedule).1 pid).processes pid
      = some { p0 with cpu_time_used := p0.cpu_time_used + 1 } := by
    have h := dfind_dmodify (s.schedule).1.processes pid
      (fun p => { p with cpu_time_used := p.cpu_time_used + 1 })
    rw [hp0] at h
    exact h
  have hg2 : (tickIncrement (s.schedule).1 pid).getProc pid
      = { p0 with cpu_time_used := p0.cpu_time_used + 1 } := by
    unfold ProcessScheduler.getProc
    rw [hdf2]
    rfl
  have hcpu2 : ((tickIncrement (s.schedule).1 pid).getProc pid).cpu_time_used
      = p0.cpu_time_used + 1 := by
    rw [hg2]
  by_cases h5 : ((tickIncrement (s.schedule).1 pid).getProc pid).cpu_time_used ≥ 5
  · have hmem2 : (dfind (tickIncrement (s.schedule).1 pid).processes pid).isSome := by
      rw [hdf2]
      rfl
    have hr2 : (tickIncrement (s.schedule).1 pid).running_process = some pid := hrun
    rw [hexec, if_pos h5, terminate_process_of_running _ pid hmem2 hr2, hget1]
    refine ⟨?_, fun _ => ⟨?_, rfl⟩⟩
    · show ((dfind (dmodify (tickIncrement (s.schedule).1 pid).processes pid
        (fun q => { q with state := ProcessState.TERMINATED })) pid).getD
          default).cpu_time_used = p0.cpu_time_used + 1
      rw [dfind_dmodify, hdf2]
      rfl
    · show ((dfind (dmodify (tickIncrement (s.schedule).1 pid).processes pid
        (fun q => { q with state := ProcessState.TERMINATED })) pid).getD
          default).state = ProcessState.TERMINATED
      rw [dfind_dmodify, hdf2]
      rfl
  · rw [hexec, if_neg h5, hget1]
    constructor
    · rw [hcpu2]
    · intro hge
      exfalso
      apply h5
      rw [hcpu2]
      omega

/-- C6 witness: after four cycles on two processes (priorities 2 and 1) the
running process has used 4 ticks; the fifth cycle pushes it to 5 and
terminates it within that tick. -/
theorem c6_execute_cycle_witness :
    ((((((ProcessScheduler.init.create_process nameA 2 1024).1.create_process
        nameB 1 1024).1.execute_cycle.execute_cycle.execute_cycle.execute_cycle).execute_cycle).getProc
          1).cpu_time_used
      = (((((ProcessScheduler.init.create_process nameA 2 1024).1.create_process
        nameB 1 1024).1.execute_cycle.execute_cycle.execute_cycle.execute_cycle).schedule).1.getProc
          1).cpu_time_used + 1) ∧
    (5 ≤ (((((ProcessScheduler.init.create_process nameA 2 1024).1.create_process
        nameB 1 1024).1.execute_cycle.execute_cycle.execute_cycle.execute_cycle).schedule).1.getProc
          1).cpu_time_used + 1 →
      (((((ProcessScheduler.init.create_process nameA 2 1024).1.create_process
        nameB 1 1024).1.execute_cycle.execute_cycle.execute_cycle.execute_cycle).execute_cycle).getProc
          1).state = ProcessState.TERMINATED ∧
      ((((ProcessScheduler.init.create_process nameA 2 1024).1.create_process
        nameB 1 1024).1.execute_cycle.execute_cycle.execute_cycle.execute_cycle).execute_cycle).running_process
        = none) :=
  c6_execute_cycle
    (((ProcessScheduler.init.create_process nameA 2 1024).1.create_process
        nameB 1 1024).1.execute_cycle.execute_cycle.execute_cycle.execute_cycle)
    1 (by rfl) (by rfl)

/-! ## Process creation: C8 -/

/-- Run a sequence of `create_process` calls (name, priority, memory),
collecting the returned pids. -/
def runCreates (s : ProcessScheduler) :
    List (String × Int × Nat) → ProcessScheduler × List Nat
  | [] => (s, [])
  | r :: rs =>
      let c := s.create_process r.1 r.2.1 r.2.2
      let rest := runCreates c.1 rs
      (rest.1, c.2 :: rest.2)

/-- Every stored pid is below the allocation counter; holds in every state
the program constructs and makes the next created pid fresh. -/
def pidsFresh (s : ProcessScheduler) : Prop :=
  ∀ e ∈ s.processes, e.1 < s.next_pid

instance (s : ProcessScheduler) : Decidable (pidsFresh s) :=
  inferInstanceAs (Decidable (∀ e ∈ s.processes, e.1 < s.next_pid))

theorem dfind_dinsert_fresh {α : Type} (ps : List (Nat × α)) (k : Nat) (v : α)
    (h : ∀ e ∈ ps, e.1 ≠ k) : dfind (dinsert ps k v) k = some v := by
  have hany : ps.any (fun e => e.1 == k) = false := by
    rw [List.any_eq_false]
    intro e he
    simpa using h e he
  rw [dinsert, hany]
  simp only [Bool.false_eq_true, if_false]
  induction ps with
  | nil => simp [dfind]
  | cons e ps ih =>
      rw [List.any_cons, Bool.or_eq_false_iff] at hany
      have hek : ¬ (e.1 == k) = true := by
        rw [hany.1]
        exact Bool.false_ne_true
      unfold dfind
      rw [List.cons_append, @List.find?_cons_of_neg _ (fun x => x.1 == k) e _ hek]
      exact ih (fun e2 he2 => h e2 (List.mem_cons_of_mem e he2)) hany.2

theorem create_process_pidsFresh (s : ProcessScheduler) (name : String)
    (priority : Int) (memory : Nat) (hf : pidsFresh s) :
    pidsFresh (s.create_process name priority memory).1 := by
  intro e he
  have he2 : e ∈ dinsert s.processes s.next_pid
      ({ pid := s.next_pid, name := name, state := ProcessState.READY,
         priority := priority, memory_required := memory,
         cpu_time_used := 0 } : Process) := he
  show e.1 < s.next_pid + 1
  rw [dinsert] at he2
  have hany : s.processes.any (fun e => e.1 == s.next_pid) = false := by
    rw [List.any_eq_false]
    intro e2 he3
    simpa using Nat.ne_of_lt (hf e2 he3)
  rw [hany] at he2
  simp only [Bool.false_eq_true, if_false] at he2
  rcases List.mem_append.1 he2 with hm | hs
  · exact Nat.lt_succ_of_lt (hf e hm)
  · rw [List.mem_singleton] at hs
    rw [hs]
    exact Nat.lt_succ_self _

theorem runCreates_pids (reqs : List (String × Int × Nat)) :
    ∀ s : ProcessScheduler,
      (runCreates s reqs).2 = List.range' s.next_pid reqs.length := by
  induction reqs with
  | nil => intro s; rfl
  | cons r rs ih =>
      intro s
      show (s.create_process r.1 r.2.1 r.2.2).2
          :: (runCreates (s.create_process r.1 r.2.1 r.2.2).1 rs).2
        = List.range' s.next_pid (rs.length + 1)
      rw [ih, List.range'_succ]
      rfl

/-- C8: `create_process` is total (it always returns a state and a pid);
over any sequence of calls the returned pids are `next_pid, next_pid+1, ...`,
strictly increasing and pairwise distinct; each call returns the current
`next_pid`, appends it to the back of the ready queue, and stores the new
process in state READY (given the pid-freshness invariant, which is
preserved). -/
theorem c8_create_process (s : ProcessScheduler) (reqs : List (String × Int × Nat))
    (name : String) (priority : Int) (memory : Nat) (hf : pidsFresh s) :
    (runCreates s reqs).2 = List.range' s.next_pid reqs.length ∧
    (runCreates s reqs).2.Pairwise (· < ·) ∧
    (runCreates s reqs).2.Nodup ∧
    (s.create_process name priority memory).2 = s.next_pid ∧
    (s.create_process name priority memory).1.ready_queue
      = s.ready_queue ++ [s.next_pid] ∧
    ((s.create_process name priority memory).1.getProc s.next_pid).state
      = ProcessState.READY ∧
    pidsFresh (s.create_process name priority memory).1 := by
  refine ⟨runCreates_pids reqs s, ?_, ?_, rfl, rfl, ?_, create_process_pidsFresh s name priority memory hf⟩
  · rw [runCreates_pids reqs s]
    exact List.pairwise_lt_range' _ _
  · rw [runCreates_pids reqs s]
    exact List.nodup_range' _ _
  · unfold ProcessScheduler.getProc
    have hfind : dfind (s.create_process name priority memory).1.processes
        s.next_pid = some ({ pid := s.next_pid, name := name,
                             state := ProcessState.READY, priority := priority,
                             memory_required := memory,
                             cpu_time_used := 0 } : Process) := by
      show dfind (dinsert s.processes s.next_pid _) s.next_pid = _
      exact dfind_dinsert_fresh _ _ _
        (fun e he => Nat.ne_of_lt (hf e he))
    rw [hfind]
    rfl

/-- C8 witness: two creations on the initial scheduler yield pids 1 and 2,
both READY and queued in order. -/
theorem c8_create_process_witness :
    (runCreates ProcessScheduler.init [(nameA, 2, 1024), (nameB, 1, 1024)]).2
      = List.range' ProcessScheduler.init.next_pid 2 ∧
    (runCreates ProcessScheduler.init [(nameA, 2, 1024), (nameB, 1, 1024)]).2.Pairwise
      (· < ·) ∧
    (runCreates ProcessScheduler.init [(nameA, 2, 1024), (nameB, 1, 1024)]).2.Nodup ∧
    (ProcessScheduler.init.create_process nameA 2 1024).2
      = ProcessScheduler.init.next_pid ∧
    (ProcessScheduler.init.create_process nameA 2 1024).1.ready_queue
      = ProcessScheduler.init.ready_queue ++ [ProcessScheduler.init.next_pid] ∧
    ((ProcessScheduler.init.create_process nameA 2 1024).1.getProc
        ProcessScheduler.init.next_pid).state = ProcessState.READY ∧
    pidsFresh (ProcessScheduler.init.create_process nameA 2 1024).1 :=
  c8_create_process ProcessScheduler.init [(nameA, 2, 1024), (nameB, 1, 1024)]
    nameA 2 1024 (by decide)

/-! ## The coupled system: C9 and C10 -/

/-- The `NexusOS` container, restricted to the two core components the
claims mention (the filesystem, security manager and CLI of the source are
out of scope here). `terminate_process` is a method of the scheduler alone;
the OS-level wrapper below makes the frame property on the memory manager
expressible. -/
structure NexusOS where
  scheduler : ProcessScheduler
  memory_manager : MemoryManager

/-- Termination at the system level: exactly the scheduler method; nothing
in the source ever calls the memory manager on this path. -/
def NexusOS.terminateProcess (os : NexusOS) (pid : Nat) : NexusOS :=
  { os with scheduler := os.scheduler.terminate_process pid }

/-- C9: terminating a process never frees memory pages: for every system
state and pid the page map and available memory are unchanged, so a
terminated process may still hold pages afterwards. -/
theorem c9_terminate_frames_memory (os : NexusOS) (pid : Nat) :
    (os.terminateProcess pid).memory_manager.memory_map
      = os.memory_manager.memory_map ∧
    (os.terminateProcess pid).memory_manager.available_memory
      = os.memory_manager.available_memory ∧
    (((NexusOS.mk (ProcessScheduler.init.create_process nameA 1 1024).1
        ((MemoryManager.init (1024*1024)).allocate_memory 1 4096).1).terminateProcess
          1).scheduler.getProc 1).state = ProcessState.TERMINATED ∧
    ((NexusOS.mk (ProcessScheduler.init.create_process nameA 1 1024).1
        ((MemoryManager.init (1024*1024)).allocate_memory 1 4096).1).terminateProcess
          1).memory_manager.memory_map = [(0, 1)] :=
  ⟨rfl, rfl, rfl, rfl⟩

/-- C10: `terminate_process` never removes a pid from the ready queue (first
conjunct, for every state and pid). Concretely: create one process, which
is READY and queued but not running; terminating it marks it TERMINATED yet
leaves it queued, and the next `schedule` call pops it, marks it RUNNING
again and returns it. -/
theorem c10_terminated_can_run_again :
    (∀ (s : ProcessScheduler) (pid : Nat),
        (s.terminate_process pid).ready_queue = s.ready_queue) ∧
    ((ProcessScheduler.init.create_process nameA 1 1024).1.terminate_process
        1).ready_queue = [1] ∧
    (((ProcessScheduler.init.create_process nameA 1 1024).1.terminate_process
        1).getProc 1).state = ProcessState.TERMINATED ∧
    ((ProcessScheduler.init.create_process nameA 1 1024).1.terminate_process
        1).running_process = none ∧
    (((ProcessScheduler.init.create_process nameA 1 1024).1.terminate_process
        1).schedule).2 = some 1 ∧
    ((((ProcessScheduler.init.create_process nameA 1 1024).1.terminate_process
        1).schedule).1.getProc 1).state = ProcessState.RUNNING := by
  refine ⟨?_, rfl, rfl, rfl, rfl, rfl⟩
  intro s pid
  rw [ProcessScheduler.terminate_process]
  by_cases h : (dfind s.processes pid).isSome
  · rw [if_pos h]
    cases hr : s.running_process with
    | none => rfl
    | some rp =>
        by_cases he : (rp == pid) = true
        · simp only [hr, he, if_true]
        · simp only [hr, he, Bool.false_eq_true, if_false]
  · rw [if_neg h]
